import Mathlib

/-!
Verification development for the `time_reporting` tool (`ptr.py`).

The program has two pieces of logic:
* `process_csv` — parses a CSV file of weekly hours (`date,M,T,W,R,F`) into a
  dict keyed by Sunday dates, and
* `run` — the reconciliation orchestrator: fetches overdue weeks, honours the
  `--list-overdue`, `--dryrun` and `--once` flags, builds a data mapping from
  the CSV file or the Exchange calendar collaborator, walks overdue weeks in
  sorted order and submits matches.

The embedding below translates those functions; external collaborators
(`time_reporter`, `pyexch`) are parameters of `run`.
-/

namespace Ptr

/-- A calendar date, as carried by Python `datetime` values. -/
structure Date where
  year : Nat
  month : Nat
  day : Nat
deriving DecidableEq, Repr

/-- Chronological strict order on dates (lexicographic year/month/day,
which is how Python `datetime` values compare). -/
def Date.lt (a b : Date) : Bool :=
  Nat.blt a.year b.year ||
    (Nat.beq a.year b.year &&
      (Nat.blt a.month b.month ||
        (Nat.beq a.month b.month && Nat.blt a.day b.day)))

/-- Chronological non-strict order on dates. -/
def Date.le (a b : Date) : Bool :=
  Nat.blt a.year b.year ||
    (Nat.beq a.year b.year &&
      (Nat.blt a.month b.month ||
        (Nat.beq a.month b.month && Nat.ble a.day b.day)))

theorem Date.lt_iff (a b : Date) :
    Date.lt a b = true ↔
      (a.year < b.year ∨ (a.year = b.year ∧
        (a.month < b.month ∨ (a.month = b.month ∧ a.day < b.day)))) := by
  simp [Date.lt, Nat.blt_eq, Bool.or_eq_true, Bool.and_eq_true, Nat.beq_eq]

theorem Date.le_iff (a b : Date) :
    Date.le a b = true ↔
      (a.year < b.year ∨ (a.year = b.year ∧
        (a.month < b.month ∨ (a.month = b.month ∧ a.day ≤ b.day)))) := by
  simp [Date.le, Nat.blt_eq, Bool.or_eq_true, Bool.and_eq_true, Nat.beq_eq,
    Nat.ble_eq]

theorem Date.lt_irrefl (a : Date) : Date.lt a a = false := by
  rw [← Bool.not_eq_true, Date.lt_iff]
  omega

theorem Date.lt_asymm {a b : Date} (h1 : Date.lt a b = true)
    (h2 : Date.lt b a = true) : False := by
  rw [Date.lt_iff] at h1 h2
  omega

theorem Date.lt_of_le_of_ne {a b : Date} (h1 : Date.le a b = true)
    (h2 : a ≠ b) : Date.lt a b = true := by
  rw [Date.le_iff] at h1
  rw [Date.lt_iff]
  rcases a with ⟨ya, ma, da⟩
  rcases b with ⟨yb, mb, db⟩
  simp only [ne_eq, Date.mk.injEq, not_and] at h2
  simp only at h1 ⊢
  by_cases hy : ya = yb
  · by_cases hm : ma = mb
    · have hd := h2 hy hm
      omega
    · omega
  · omega

theorem Date.le_total (a b : Date) :
    Date.le a b = true ∨ Date.le b a = true := by
  rw [Date.le_iff, Date.le_iff]
  omega

theorem Date.le_trans {a b c : Date} (h1 : Date.le a b = true)
    (h2 : Date.le b c = true) : Date.le a c = true := by
  rw [Date.le_iff] at h1 h2 ⊢
  omega

/-! ### Calendar arithmetic (proleptic Gregorian, as Python `datetime`) -/

/-- Gregorian leap-year test. -/
def isLeap (y : Nat) : Bool :=
  (y % 4 == 0 && y % 100 != 0) || y % 400 == 0

/-- Number of days in a month of a given year. -/
def daysInMonth (y m : Nat) : Nat :=
  if m = 2 then (if isLeap y then 29 else 28)
  else if m = 4 ∨ m = 6 ∨ m = 9 ∨ m = 11 then 30
  else 31

/-- Days in the months of year `y` strictly before month `m`. -/
def daysBeforeMonth (y m : Nat) : Nat :=
  (List.range (m - 1)).foldl (fun a i => a + daysInMonth y (i + 1)) 0

/-- Proleptic-Gregorian ordinal of a date: `rataDie ⟨1,1,1⟩ = 1`.
Matches Python `date.toordinal`. -/
def rataDie (dt : Date) : Nat :=
  let y := dt.year - 1
  365 * y + y / 4 - y / 100 + y / 400 + daysBeforeMonth dt.year dt.month + dt.day

/-- Python `date.weekday()`: Monday = 0 … Sunday = 6.
Day 1 (0001-01-01) is a Monday. -/
def pyWeekday (dt : Date) : Nat :=
  (rataDie dt + 6) % 7

/-! ### Python string primitives used by `process_csv` -/

/-- Whitespace characters stripped by Python `str.rstrip()` / `int()`. -/
def isPySpace (c : Char) : Bool :=
  decide (c.toNat = 32 ∨ c.toNat = 9 ∨ c.toNat = 10 ∨ c.toNat = 13 ∨
    c.toNat = 11 ∨ c.toNat = 12)

/-- ASCII decimal digit test. -/
def isDigitCh (c : Char) : Bool :=
  decide (48 ≤ c.toNat ∧ c.toNat ≤ 57)

/-- Python `str.rstrip()`: drop trailing whitespace. -/
def pyRstrip (s : String) : String :=
  String.mk (s.data.reverse.dropWhile isPySpace).reverse

/-- Split a character list at every occurrence of `sep`. -/
def splitChAux (sep : Char) : List Char → List Char → List String
  | [], cur => [String.mk cur.reverse]
  | c :: cs, cur =>
    if c = sep then String.mk cur.reverse :: splitChAux sep cs []
    else splitChAux sep cs (c :: cur)

/-- Python `str.split(sep)` with a one-character separator: `""` yields
`[""]`, adjacent separators yield empty fields. -/
def splitCh (sep : Char) (s : String) : List String :=
  splitChAux sep s.data []

/-- Strip leading and trailing whitespace from a character list
(Python `str.strip()`, applied by `int()` before parsing). -/
def stripChars (cs : List Char) : List Char :=
  ((cs.dropWhile isPySpace).reverse.dropWhile isPySpace).reverse

/-- Value of a list of decimal digit characters. -/
def digitsToNat (cs : List Char) : Nat :=
  cs.foldl (fun a ch => a * 10 + (ch.toNat - 48)) 0

/-- Parse a non-empty all-digit character list, else fail. -/
def parseDigitsOpt (cs : List Char) : Option Nat :=
  if cs ≠ [] ∧ cs.all isDigitCh = true then some (digitsToNat cs) else none

/-- Parse an optionally-signed run of digits (whitespace already stripped). -/
def pyIntChars : List Char → Option Int
  | [] => none
  | c :: rest =>
    if c = '-' then (parseDigitsOpt rest).map (fun n => -(n : Int))
    else if c = '+' then (parseDigitsOpt rest).map (fun n => (n : Int))
    else (parseDigitsOpt (c :: rest)).map (fun n => (n : Int))

/-- Python `int(s)` on a decimal string: strips surrounding whitespace,
allows one optional sign, then requires a non-empty run of digits; raises
`ValueError` (here: `none`) otherwise.  (Digit-group underscores, accepted
by Python ≥ 3.6, are not modelled; no claim depends on them.) -/
def pyInt (s : String) : Option Int :=
  pyIntChars (stripChars s.data)

/-! ### Date parsing -/

/-- Parse one `strptime` numeric field: between `lo` and `hi` digits. -/
def parseField (lo hi : Nat) (s : String) : Option Nat :=
  if lo ≤ s.data.length ∧ s.data.length ≤ hi ∧ s.data.all isDigitCh = true then
    some (digitsToNat s.data)
  else none

/-- Modelled from the spec: the constant `time_reporter.Time_Reporter.DATE_FORMAT`
lives in the `time_reporter` module, which is not part of this snapshot; the
spec fixes the CSV date format as `YYYY-MM-DD`, parsed by
`datetime.datetime.strptime`.  CPython's `_strptime` matches `%Y` as exactly
4 digits and `%m`/`%d` as 1–2 digits, and constructing the `datetime`
validates ranges (year ≥ 1, month 1–12, day within the month). -/
def parseDate (s : String) : Option Date :=
  match splitCh '-' s with
  | [ys, ms, ds] =>
    match parseField 4 4 ys, parseField 1 2 ms, parseField 1 2 ds with
    | some y, some m, some d =>
      if 1 ≤ y ∧ 1 ≤ m ∧ m ≤ 12 ∧ 1 ≤ d ∧ d ≤ daysInMonth y m then
        some ⟨y, m, d⟩
      else none
    | _, _, _ => none
  | _ => none

/-! ### `process_csv` -/

/-- The week's hours: the value `[8 if len(x)<1 else int(x) for x in parts[1:6]]`
computed left to right; `none` models the uncaught `ValueError` raised by
`int` on a non-empty, non-integer field. -/
def buildHours : List String → Option (List Int)
  | [] => some []
  | x :: xs =>
    match (if x.length < 1 then some (8 : Int) else pyInt x) with
    | none => none
    | some v =>
      match buildHours xs with
      | none => none
      | some rest => some (v :: rest)

/-- Python dict assignment `m[k] = v`: replace the value at an existing key
(keeping its position), else append the new binding. -/
def dictInsert (m : List (Date × List Int)) (k : Date) (v : List Int) :
    List (Date × List Int) :=
  match m with
  | [] => [(k, v)]
  | (k', v') :: rest =>
    if k' = k then (k, v) :: rest else (k', v') :: dictInsert rest k v

/-- Process one line of the CSV file against the accumulated dict, as the loop
body of `process_csv` does: rstrip, split on commas, check the field count,
parse and validate the date, build the hours, check the hour count, insert.
`none` models the uncaught `ValueError` from `int` (the `try` only guards
`strptime`); `some acc` is a skipped (rejected) line. -/
def processLine (acc : List (Date × List Int)) (l : String) :
    Option (List (Date × List Int)) :=
  let parts := splitCh ',' (pyRstrip l)
  if parts.length ≠ 6 then some acc
  else
    match parseDate (parts.headD "") with
    | none => some acc
    | some d =>
      if pyWeekday d ≠ 6 then some acc
      else
        match buildHours ((parts.drop 1).take 5) with
        | none => none
        | some hs =>
          if hs.length ≠ 5 then some acc
          else some (dictInsert acc d hs)

/-- Fold `processLine` over the remaining lines; `none` aborts the whole
run (an uncaught exception). -/
def processAll (acc : List (Date × List Int)) :
    List String → Option (List (Date × List Int))
  | [] => some acc
  | l :: ls =>
    match processLine acc l with
    | none => none
    | some acc' => processAll acc' ls

/-- `process_csv`: the file's lines (as yielded by iterating the open file)
to a dict from Sunday dates to 5-element hour lists. -/
def process_csv (lines : List String) : Option (List (Date × List Int)) :=
  processAll [] lines

/-! ### The `run` orchestrator -/

/-- The command-line flags `run` consults.  `csv` carries the lines of the
file named by `--csv` (or `none` when that flag is absent); `exch` is
`--exch`; the action flags are mutually exclusive in the CLI. -/
structure Args where
  dryrun : Bool
  once : Bool
  list_overdue : Bool
  csv : Option (List String)
  exch : Bool
deriving DecidableEq, Repr

/-- How a run ended: the `SystemExit` for no overdue weeks, the
`SystemExit` ending list mode, the `SystemExit` raised by `--once` after
handling week `w`, or falling off the end of the reconciliation loop. -/
inductive Terminal where
  | noOverdue : Terminal
  | listed : Terminal
  | onceStop : Date → Terminal
  | exhausted : Terminal
deriving DecidableEq, Repr

/-- Observable effects of one run: lines written by `print`, the
`reporter.submit` calls in order, the overdue keys visited by the loop,
whether `process_csv` ran, whether the Exchange collaborator was queried,
the DataMapping that was built, and the terminal state. -/
structure RunOutcome where
  printed : List String
  submissions : List (Date × List Int)
  visited : List Date
  csvConsulted : Bool
  exchConsulted : Bool
  data : List (Date × List Int)
  terminal : Terminal
deriving DecidableEq, Repr

/-- Python `sorted` on the overdue keys: a chronologically sorted
permutation. -/
def sortDates (l : List Date) : List Date :=
  List.insertionSort (fun a b => Date.le a b = true) l

/-- Python `min` over the overdue keys (used as the Exchange query start). -/
def minDate : List Date → Date
  | [] => ⟨1, 1, 1⟩
  | k :: ks => ks.foldl (fun a b => if Date.lt b a = true then b else a) k

/-- Three-letter English month abbreviation, as C-locale `%b`. -/
def monthAbbrev (m : Nat) : String :=
  ["Jan", "Feb", "Mar", "Apr", "May", "Jun",
   "Jul", "Aug", "Sep", "Oct", "Nov", "Dec"].getD (m - 1) ""

/-- Zero-pad the decimal form of `n` to width `w`. -/
def padZeros (w n : Nat) : String :=
  String.mk (List.replicate (w - (toString n).length) '0') ++ toString n

/-- `strftime('%Y-%b-%d')`: e.g. `2023-Jan-01`. -/
def fmtDate (d : Date) : String :=
  padZeros 4 d.year ++ "-" ++ monthAbbrev d.month ++ "-" ++ padZeros 2 d.day

/-- What the reconciliation loop produced: visited keys, submission calls,
and the key at which `--once` raised `SystemExit` (if it did). -/
structure LoopRes where
  visited : List Date
  submissions : List (Date × List Int)
  stop : Option Date
deriving DecidableEq, Repr

/-- The loop `for key in sorted(overdue): ...` of `run`: visit each key,
and when it is in `data`, submit unless `--dryrun`, then exit if `--once`. -/
def reconcile (args : Args) (data : List (Date × List Int)) :
    List Date → LoopRes
  | [] => ⟨[], [], none⟩
  | k :: rest =>
    match List.lookup k data with
    | none =>
      let r := reconcile args data rest
      ⟨k :: r.visited, r.submissions, r.stop⟩
    | some hs =>
      let subs := if args.dryrun then [] else [(k, hs)]
      if args.once then ⟨[k], subs, some k⟩
      else
        let r := reconcile args data rest
        ⟨k :: r.visited, subs ++ r.submissions, r.stop⟩

/-- Package a finished loop into a `RunOutcome`. -/
def loopOutcome (args : Args) (data : List (Date × List Int))
    (overdueKeys : List Date) (c e : Bool) : RunOutcome :=
  let r := reconcile args data (sortDates overdueKeys)
  ⟨[], r.submissions, r.visited, c, e, data,
    match r.stop with
    | some w => Terminal.onceStop w
    | none => Terminal.exhausted⟩

/-- The `run` function of `ptr.py`.  `overdueKeys` are the keys of the dict
returned by `reporter.get_overdue_weeks()` (distinct dates);
`exchSource` is the collaborator call
`pyexch.PyExch(...).weekly_hours_worked(start)`.  `none` models an uncaught
exception escaping `run` (only `process_csv`'s `ValueError` can produce it
in this embedding). -/
def run (args : Args) (overdueKeys : List Date)
    (exchSource : Date → List (Date × List Int)) : Option RunOutcome :=
  if overdueKeys.length < 1 then
    some ⟨[], [], [], false, false, [], Terminal.noOverdue⟩
  else if args.list_overdue then
    some ⟨"Overdue Dates" :: (sortDates overdueKeys).map fmtDate,
      [], [], false, false, [], Terminal.listed⟩
  else
    match args.csv with
    | some lines =>
      match process_csv lines with
      | none => none
      | some data => some (loopOutcome args data overdueKeys true false)
    | none =>
      if args.exch then
        some (loopOutcome args (exchSource (minDate overdueKeys))
          overdueKeys false true)
      else
        some (loopOutcome args [] overdueKeys false false)

/-! ### Lemmas: integer-field parsing -/

/-- A CSV hour field accepted by the spec's contract: empty, or a non-empty
string of decimal digits (a non-negative integer literal). -/
def goodField (x : String) : Prop :=
  x = "" ∨ (x.data ≠ [] ∧ x.data.all isDigitCh = true)

/-- The value `process_csv` assigns to a good hour field:
8 for an empty field, else its decimal value. -/
def hourVal (x : String) : Int :=
  if x = "" then 8 else (digitsToNat x.data : Int)

instance : DecidablePred goodField := fun x => by
  unfold goodField
  infer_instance

theorem isPySpace_of_isDigitCh {c : Char} (h : isDigitCh c = true) :
    isPySpace c = false := by
  simp only [isDigitCh, decide_eq_true_eq] at h
  simp only [isPySpace, decide_eq_false_iff_not]
  omega

theorem dropWhile_isPySpace_of_digits {cs : List Char}
    (h : cs.all isDigitCh = true) : cs.dropWhile isPySpace = cs := by
  cases cs with
  | nil => rfl
  | cons c cs' =>
    rw [List.all_cons, Bool.and_eq_true] at h
    rw [List.dropWhile_cons, isPySpace_of_isDigitCh h.1]
    simp

theorem stripChars_of_digits {cs : List Char}
    (h : cs.all isDigitCh = true) : stripChars cs = cs := by
  have hr : cs.reverse.all isDigitCh = true := by
    rw [List.all_eq_true] at h ⊢
    intro c hc
    exact h c (List.mem_reverse.mp hc)
  rw [stripChars, dropWhile_isPySpace_of_digits h,
    dropWhile_isPySpace_of_digits hr, List.reverse_reverse]

theorem data_ne_nil_of_ne_empty {x : String} (h : x ≠ "") : x.data ≠ [] :=
  fun hd => h (String.ext hd)

theorem pyInt_digits {x : String} (hne : x.data ≠ [])
    (hd : x.data.all isDigitCh = true) :
    pyInt x = some ((digitsToNat x.data : Nat) : Int) := by
  simp only [pyInt]
  rw [stripChars_of_digits hd]
  cases hx : x.data with
  | nil => exact absurd hx hne
  | cons c rest =>
    rw [hx] at hd
    rw [List.all_cons, Bool.and_eq_true] at hd
    have hcd : (48 ≤ c.toNat ∧ c.toNat ≤ 57) := by
      simpa [isDigitCh, decide_eq_true_eq] using hd.1
    have hcm : ¬ (c = '-') := by
      intro h
      subst h
      exact absurd hcd (by decide)
    have hcp : ¬ (c = '+') := by
      intro h
      subst h
      exact absurd hcd (by decide)
    simp only [pyIntChars]
    rw [if_neg hcm, if_neg hcp, parseDigitsOpt,
      if_pos ⟨List.cons_ne_nil c rest, by
        rw [List.all_cons, Bool.and_eq_true]; exact ⟨hd.1, hd.2⟩⟩]
    simp

theorem hourField_good {x : String} (h : goodField x) :
    (if x.length < 1 then some (8 : Int) else pyInt x) = some (hourVal x) := by
  rcases h with rfl | ⟨hne, hd⟩
  · simp [hourVal]
  · have hxe : x ≠ "" := by
      intro h; subst h; exact hne rfl
    have hlen : ¬ (x.length < 1) := by
      have : x.data.length ≠ 0 := fun h => hne (List.eq_nil_of_length_eq_zero h)
      simp only [String.length]
      omega
    rw [if_neg hlen, pyInt_digits hne hd, hourVal, if_neg hxe]

theorem buildHours_good : ∀ {fs : List String}, (∀ x ∈ fs, goodField x) →
    buildHours fs = some (fs.map hourVal) := by
  intro fs
  induction fs with
  | nil => intro _; rfl
  | cons x xs ih =>
    intro h
    rw [buildHours, hourField_good (h x (List.mem_cons_self x xs)),
      ih (fun y hy => h y (List.mem_cons_of_mem x hy))]
    simp

theorem buildHours_length : ∀ {fs : List String} {hs : List Int},
    buildHours fs = some hs → hs.length = fs.length := by
  intro fs
  induction fs with
  | nil =>
    intro hs h
    rw [buildHours] at h
    cases h
    rfl
  | cons x xs ih =>
    intro hs h
    rw [buildHours] at h
    cases hv : (if x.length < 1 then some (8 : Int) else pyInt x) with
    | none => rw [hv] at h; cases h
    | some v =>
      rw [hv] at h
      cases hr : buildHours xs with
      | none => rw [hr] at h; cases h
      | some rest =>
        rw [hr] at h
        cases h
        simp [ih hr]

theorem buildHours_bad : ∀ {fs : List String} {x : String}, x ∈ fs → x ≠ "" →
    pyInt x = none → buildHours fs = none := by
  intro fs
  induction fs with
  | nil => intro x hx; cases hx
  | cons y ys ih =>
    intro x hx hne hbad
    have hlen : ∀ z : String, z ≠ "" → ¬ (z.length < 1) := by
      intro z hz
      have : z.data.length ≠ 0 :=
        fun h => (data_ne_nil_of_ne_empty hz) (List.eq_nil_of_length_eq_zero h)
      simp only [String.length]
      omega
    rcases List.mem_cons.mp hx with rfl | hx'
    · rw [buildHours, if_neg (hlen x hne), hbad]
    · rw [buildHours]
      cases hv : (if y.length < 1 then some (8 : Int) else pyInt y) with
      | none => rfl
      | some v => rw [ih hx' hne hbad]

/-! ### Lemmas: dict operations -/

theorem lookup_dictInsert_self (k : Date) (v : List Int) :
    ∀ m, List.lookup k (dictInsert m k v) = some v := by
  intro m
  induction m with
  | nil => simp [dictInsert, List.lookup]
  | cons p rest ih =>
    rcases p with ⟨k', v'⟩
    rw [dictInsert]
    by_cases h : k' = k
    · rw [if_pos h]
      simp [List.lookup]
    · rw [if_neg h]
      simp only [List.lookup]
      have : (k == k') = false := by
        simp only [beq_eq_false_iff_ne, ne_eq]
        exact fun he => h he.symm
      rw [this]
      exact ih

theorem mem_dictInsert {p : Date × List Int} {k : Date} {v : List Int} :
    ∀ {m}, p ∈ dictInsert m k v → p = (k, v) ∨ p ∈ m := by
  intro m
  induction m with
  | nil =>
    intro h
    rw [dictInsert] at h
    rcases List.mem_singleton.mp h with rfl
    exact Or.inl rfl
  | cons q rest ih =>
    intro h
    rcases q with ⟨k', v'⟩
    rw [dictInsert] at h
    by_cases hk : k' = k
    · rw [if_pos hk] at h
      rcases List.mem_cons.mp h with rfl | h'
      · exact Or.inl rfl
      · exact Or.inr (List.mem_cons_of_mem _ h')
    · rw [if_neg hk] at h
      rcases List.mem_cons.mp h with rfl | h'
      · exact Or.inr (List.mem_cons_self _ _)
      · rcases ih h' with h'' | h''
        · exact Or.inl h''
        · exact Or.inr (List.mem_cons_of_mem _ h'')

/-! ### Lemmas: `processLine` and `processAll` -/

theorem processLine_valid {l s0 fa fb fc fd fe : String} {dt : Date}
    (hsplit : splitCh ',' (pyRstrip l) = [s0, fa, fb, fc, fd, fe])
    (hdate : parseDate s0 = some dt)
    (hsun : pyWeekday dt = 6)
    (hgood : ∀ x ∈ [fa, fb, fc, fd, fe], goodField x) :
    ∀ acc, processLine acc l =
      some (dictInsert acc dt ([fa, fb, fc, fd, fe].map hourVal)) := by
  intro acc
  simp [processLine, hsplit, hdate, hsun, buildHours_good hgood]

theorem processLine_wrong_fields {l : String}
    (h : (splitCh ',' (pyRstrip l)).length ≠ 6) :
    ∀ acc, processLine acc l = some acc := by
  intro acc
  simp only [processLine]
  rw [if_pos h]

theorem processLine_bad_date {l : String}
    (h6 : (splitCh ',' (pyRstrip l)).length = 6)
    (hdate : parseDate ((splitCh ',' (pyRstrip l)).headD "") = none) :
    ∀ acc, processLine acc l = some acc := by
  intro acc
  simp only [processLine]
  have h6' : ¬ ((splitCh ',' (pyRstrip l)).length ≠ 6) := by omega
  rw [if_neg h6', hdate]

theorem processLine_not_sunday {l : String} {dt : Date}
    (hdate : parseDate ((splitCh ',' (pyRstrip l)).headD "") = some dt)
    (hsun : pyWeekday dt ≠ 6) :
    ∀ acc, processLine acc l = some acc := by
  intro acc
  simp only [processLine]
  by_cases h6 : (splitCh ',' (pyRstrip l)).length ≠ 6
  · rw [if_pos h6]
  · rw [if_neg h6, hdate]
    simp [hsun]

theorem processLine_bad_int {l s0 fa fb fc fd fe x : String} {dt : Date}
    (hsplit : splitCh ',' (pyRstrip l) = [s0, fa, fb, fc, fd, fe])
    (hdate : parseDate s0 = some dt)
    (hsun : pyWeekday dt = 6)
    (hx : x ∈ [fa, fb, fc, fd, fe]) (hne : x ≠ "") (hbad : pyInt x = none) :
    ∀ acc, processLine acc l = none := by
  intro acc
  simp [processLine, hsplit, hdate, hsun, buildHours_bad hx hne hbad]

theorem processLine_mem {acc acc' : List (Date × List Int)} {l : String}
    (h : processLine acc l = some acc') :
    ∀ p ∈ acc', p ∈ acc ∨ pyWeekday p.1 = 6 := by
  intro p hp
  simp only [processLine] at h
  split at h
  · cases h
    exact Or.inl hp
  · split at h
    · cases h
      exact Or.inl hp
    · rename_i d hd
      split at h
      · cases h
        exact Or.inl hp
      · rename_i hsun
        split at h
        · cases h
        · split at h
          · cases h
            exact Or.inl hp
          · cases h
            rcases mem_dictInsert hp with rfl | hp'
            · exact Or.inr (not_not.mp hsun)
            · exact Or.inl hp'

theorem processAll_skip {acc : List (Date × List Int)} {l : String}
    (h : processLine acc l = some acc) (ls : List String) :
    processAll acc (l :: ls) = processAll acc ls := by
  rw [processAll, h]

theorem processAll_append (xs : List String) :
    ∀ (acc : List (Date × List Int)) (ys : List String),
      processAll acc (xs ++ ys) =
        (processAll acc xs).bind (fun acc' => processAll acc' ys) := by
  induction xs with
  | nil => intro acc ys; rfl
  | cons x xs' ih =>
    intro acc ys
    rw [List.cons_append, processAll, processAll]
    cases h : processLine acc x with
    | none => rfl
    | some acc' => exact ih acc' ys

theorem processAll_sunday : ∀ {ls : List String} {acc m : List (Date × List Int)},
    (∀ p ∈ acc, pyWeekday (Prod.fst p) = 6) → processAll acc ls = some m →
    ∀ p ∈ m, pyWeekday (Prod.fst p) = 6 := by
  intro ls
  induction ls with
  | nil =>
    intro acc m hacc h
    rw [processAll] at h
    cases h
    exact hacc
  | cons l ls' ih =>
    intro acc m hacc h
    rw [processAll] at h
    cases hl : processLine acc l with
    | none =>
      rw [hl] at h
      cases h
    | some acc' =>
      rw [hl] at h
      refine ih ?_ h
      intro p hp
      rcases processLine_mem hl p hp with h' | h'
      · exact hacc p h'
      · exact h'

/-! ### Lemmas: sorting the overdue keys -/

instance : IsTotal Date (fun a b => Date.le a b = true) :=
  ⟨Date.le_total⟩

instance : IsTrans Date (fun a b => Date.le a b = true) :=
  ⟨fun _ _ _ => Date.le_trans⟩

theorem sortDates_perm (l : List Date) : List.Perm (sortDates l) l :=
  List.perm_insertionSort _ l

theorem mem_sortDates {k : Date} {l : List Date} : k ∈ sortDates l ↔ k ∈ l :=
  (sortDates_perm l).mem_iff

theorem sortDates_sorted (l : List Date) :
    (sortDates l).Pairwise (fun a b => Date.le a b = true) :=
  List.sorted_insertionSort _ l

theorem pairwise_lt_of_le_nodup : ∀ {l : List Date},
    l.Pairwise (fun a b => Date.le a b = true) → l.Nodup →
    l.Pairwise (fun a b => Date.lt a b = true) := by
  intro l h1 h2
  induction l with
  | nil => exact List.Pairwise.nil
  | cons x xs ih =>
    rw [List.pairwise_cons] at h1 ⊢
    rw [List.nodup_cons] at h2
    refine ⟨fun y hy => Date.lt_of_le_of_ne (h1.1 y hy) ?_, ih h1.2 h2.2⟩
    intro hxy
    exact h2.1 (hxy ▸ hy)

theorem sortDates_pairwise_lt {l : List Date} (h : l.Nodup) :
    (sortDates l).Pairwise (fun a b => Date.lt a b = true) :=
  pairwise_lt_of_le_nodup (sortDates_sorted l)
    ((sortDates_perm l).nodup_iff.mpr h)

/-! ### Lemmas: the reconciliation loop -/

theorem reconcile_dryrun {args : Args} (data : List (Date × List Int))
    (hdry : args.dryrun = true) :
    ∀ ks, (reconcile args data ks).submissions = [] := by
  intro ks
  induction ks with
  | nil => rfl
  | cons k rest ih =>
    simp only [reconcile]
    cases hl : List.lookup k data with
    | none => simpa using ih
    | some hs =>
      simp only [hdry, if_true]
      cases ho : args.once
      · simp [ih]
      · simp

theorem reconcile_visited_sublist (args : Args) (data : List (Date × List Int)) :
    ∀ ks, List.Sublist (reconcile args data ks).visited ks := by
  intro ks
  induction ks with
  | nil => exact List.Sublist.refl []
  | cons k rest ih =>
    simp only [reconcile]
    cases hl : List.lookup k data with
    | none => exact List.Sublist.cons₂ k ih
    | some hs =>
      cases ho : args.once
      · simp only [Bool.false_eq_true, if_false]
        exact List.Sublist.cons₂ k ih
      · simp only [if_true]
        exact List.Sublist.cons₂ k (List.nil_sublist rest)

theorem reconcile_not_once_stop {args : Args} (data : List (Date × List Int))
    (ho : args.once = false) :
    ∀ ks, (reconcile args data ks).stop = none := by
  intro ks
  induction ks with
  | nil => rfl
  | cons k rest ih =>
    simp only [reconcile]
    cases hl : List.lookup k data with
    | none => simpa using ih
    | some hs => simp [ho, ih]

theorem reconcile_once_stop {args : Args} (data : List (Date × List Int))
    (ho : args.once = true) :
    ∀ ks, (reconcile args data ks).stop =
      List.find? (fun k => (List.lookup k data).isSome) ks := by
  intro ks
  induction ks with
  | nil => rfl
  | cons k rest ih =>
    simp only [reconcile]
    cases hl : List.lookup k data with
    | none =>
      rw [List.find?_cons_of_neg _ (by simp [hl])]
      simpa using ih
    | some hs =>
      rw [List.find?_cons_of_pos _ (by simp [hl])]
      simp [ho]

theorem reconcile_once_subs {args : Args} (data : List (Date × List Int))
    (ho : args.once = true) :
    ∀ ks, (reconcile args data ks).submissions.length ≤ 1 := by
  intro ks
  induction ks with
  | nil => simp [reconcile]
  | cons k rest ih =>
    simp only [reconcile]
    cases hl : List.lookup k data with
    | none => simpa using ih
    | some hs =>
      simp only [ho, if_true]
      cases hd : args.dryrun <;> simp

theorem reconcile_once_matches {args : Args} (data : List (Date × List Int))
    (ho : args.once = true) :
    ∀ ks, ((reconcile args data ks).visited.countP
      (fun k => (List.lookup k data).isSome)).le 1 := by
  intro ks
  induction ks with
  | nil => simp [reconcile]
  | cons k rest ih =>
    simp only [reconcile]
    cases hl : List.lookup k data with
    | none =>
      simp only [List.countP_cons, hl, Option.isSome_none, Bool.false_eq_true,
        if_false, Nat.add_zero]
      simpa using ih
    | some hs =>
      simp [ho, List.countP_cons, hl]

theorem reconcile_stop_first {args : Args} {data : List (Date × List Int)}
    (ho : args.once = true) :
    ∀ {ks : List Date} {w : Date},
      ks.Pairwise (fun a b => Date.lt a b = true) →
      (reconcile args data ks).stop = some w →
      ∀ k ∈ ks, Date.lt k w = true → List.lookup k data = none := by
  intro ks
  induction ks with
  | nil =>
    intro w _ hstop
    simp [reconcile] at hstop
  | cons k0 rest ih =>
    intro w hp hstop k hk hlt
    rw [List.pairwise_cons] at hp
    simp only [reconcile] at hstop
    cases hl : List.lookup k0 data with
    | none =>
      rw [hl] at hstop
      simp only at hstop
      rcases List.mem_cons.mp hk with rfl | hk'
      · exact hl
      · exact ih hp.2 hstop k hk' hlt
    | some hs =>
      rw [hl] at hstop
      simp only [ho, if_true] at hstop
      have hw : k0 = w := by
        simpa using hstop
      subst hw
      rcases List.mem_cons.mp hk with rfl | hk'
      · rw [Date.lt_irrefl] at hlt
        cases hlt
      · exact absurd hlt (fun h => Date.lt_asymm h (hp.1 k hk'))

/-! ### Lemmas: `loopOutcome` and `run` -/

theorem loopOutcome_printed (args : Args) (data : List (Date × List Int))
    (ks : List Date) (c e : Bool) :
    (loopOutcome args data ks c e).printed = [] := rfl

theorem loopOutcome_submissions (args : Args) (data : List (Date × List Int))
    (ks : List Date) (c e : Bool) :
    (loopOutcome args data ks c e).submissions =
      (reconcile args data (sortDates ks)).submissions := rfl

theorem loopOutcome_visited (args : Args) (data : List (Date × List Int))
    (ks : List Date) (c e : Bool) :
    (loopOutcome args data ks c e).visited =
      (reconcile args data (sortDates ks)).visited := rfl

theorem loopOutcome_data (args : Args) (data : List (Date × List Int))
    (ks : List Date) (c e : Bool) :
    (loopOutcome args data ks c e).data = data := rfl

theorem loopOutcome_onceStop_iff {args : Args} {data : List (Date × List Int)}
    {ks : List Date} {c e : Bool} {w : Date} :
    (loopOutcome args data ks c e).terminal = Terminal.onceStop w ↔
      (reconcile args data (sortDates ks)).stop = some w := by
  simp only [loopOutcome]
  cases h : (reconcile args data (sortDates ks)).stop <;> simp

theorem loopOutcome_exhausted_iff {args : Args} {data : List (Date × List Int)}
    {ks : List Date} {c e : Bool} :
    (loopOutcome args data ks c e).terminal = Terminal.exhausted ↔
      (reconcile args data (sortDates ks)).stop = none := by
  simp only [loopOutcome]
  cases h : (reconcile args data (sortDates ks)).stop <;> simp

theorem run_cases {args : Args} {ks : List Date}
    {ex : Date → List (Date × List Int)} {out : RunOutcome}
    (h : run args ks ex = some out) :
    out = ⟨[], [], [], false, false, [], Terminal.noOverdue⟩ ∨
    out = ⟨"Overdue Dates" :: (sortDates ks).map fmtDate, [], [], false, false,
      [], Terminal.listed⟩ ∨
    ∃ data c e, out = loopOutcome args data ks c e := by
  unfold run at h
  split at h
  · exact Or.inl (Option.some.inj h).symm
  · split at h
    · exact Or.inr (Or.inl (Option.some.inj h).symm)
    · split at h
      · split at h
        · cases h
        · rename_i data hdata
          exact Or.inr (Or.inr ⟨data, true, false, (Option.some.inj h).symm⟩)
      · split at h
        · exact Or.inr (Or.inr ⟨_, false, true, (Option.some.inj h).symm⟩)
        · exact Or.inr (Or.inr ⟨[], false, false, (Option.some.inj h).symm⟩)

/-- The `processLine` that the legacy `expected 5 workdays` check would
produce if it were removed — used to show the check is unreachable. -/
def processLineNoCheck (acc : List (Date × List Int)) (l : String) :
    Option (List (Date × List Int)) :=
  let parts := splitCh ',' (pyRstrip l)
  if parts.length ≠ 6 then some acc
  else
    match parseDate (parts.headD "") with
    | none => some acc
    | some d =>
      if pyWeekday d ≠ 6 then some acc
      else
        match buildHours ((parts.drop 1).take 5) with
        | none => none
        | some hs => some (dictInsert acc d hs)

/-! ### Claim theorems -/

/-- C1: every CSV line `date,a,b,c,d,e` whose date parses under the fixed
format to a Sunday, and whose five hour fields are each empty or a
non-negative integer string, is mapped by `process_csv` to that date keyed
to the 5-element list with each empty field replaced by 8 and every other
field parsed as an integer. -/
theorem process_csv_valid_line (l s0 fa fb fc fd fe : String) (dt : Date)
    (hsplit : splitCh ',' (pyRstrip l) = [s0, fa, fb, fc, fd, fe])
    (hdate : parseDate s0 = some dt)
    (hsun : pyWeekday dt = 6)
    (hgood : ∀ x ∈ [fa, fb, fc, fd, fe], goodField x) :
    (∀ acc, processLine acc l =
      some (dictInsert acc dt ([fa, fb, fc, fd, fe].map hourVal))) ∧
    process_csv [l] = some [(dt, [fa, fb, fc, fd, fe].map hourVal)] ∧
    List.lookup dt [(dt, [fa, fb, fc, fd, fe].map hourVal)] =
      some ([fa, fb, fc, fd, fe].map hourVal) := by
  refine ⟨processLine_valid hsplit hdate hsun hgood, ?_, ?_⟩
  · rw [process_csv, processAll, processLine_valid hsplit hdate hsun hgood []]
    rfl
  · simp [List.lookup]

theorem process_csv_valid_line_witness :
    process_csv ["2023-01-01,1,,2,0,10"] =
      some [(⟨2023, 1, 1⟩, ["1", "", "2", "0", "10"].map hourVal)] :=
  (process_csv_valid_line "2023-01-01,1,,2,0,10" "2023-01-01" "1" "" "2" "0"
    "10" ⟨2023, 1, 1⟩ (by decide) (by decide) (by decide) (by decide)).2.1

/-- C2 (counterexample): a 6-field line with a valid Sunday date and the
non-integer hour field `abc` is not skipped: `process_csv` aborts (returns
`none`, the uncaught `ValueError`), and a later well-formed line that would
parse on its own is never processed. -/
theorem process_csv_bad_hour_counterexample :
    process_csv ["2023-01-01,abc,1,1,1,1", "2023-01-08,1,1,1,1,1"] = none ∧
    process_csv ["2023-01-08,1,1,1,1,1"] =
      some [(⟨2023, 1, 8⟩, [1, 1, 1, 1, 1])] := by
  exact ⟨by decide, by decide⟩

/-- C2 (amended): a CSV line that splits into exactly 6 fields with a valid
Sunday date but a non-empty, non-integer hour field is fatal: the `int`
call raises an uncaught `ValueError` (the `try` only guards `strptime`), so
`process_csv` aborts, the line contributes no key, and subsequent lines are
not processed. -/
theorem process_csv_bad_hour_aborts (l s0 fa fb fc fd fe x : String)
    (dt : Date)
    (hsplit : splitCh ',' (pyRstrip l) = [s0, fa, fb, fc, fd, fe])
    (hdate : parseDate s0 = some dt)
    (hsun : pyWeekday dt = 6)
    (hx : x ∈ [fa, fb, fc, fd, fe]) (hne : x ≠ "") (hbad : pyInt x = none) :
    (∀ acc, processLine acc l = none) ∧
    ∀ pre post, process_csv (pre ++ l :: post) = none := by
  have hpl := processLine_bad_int hsplit hdate hsun hx hne hbad
  refine ⟨hpl, ?_⟩
  intro pre post
  rw [process_csv, processAll_append]
  cases h : processAll [] pre with
  | none => rfl
  | some acc =>
    simp [processAll, hpl acc]

theorem process_csv_bad_hour_aborts_witness :
    process_csv (["2023-01-08,1,1,1,1,1"] ++
      "2023-01-01,abc,1,1,1,1" :: ["2023-01-15,1,1,1,1,1"]) = none :=
  (process_csv_bad_hour_aborts "2023-01-01,abc,1,1,1,1" "2023-01-01" "abc"
    "1" "1" "1" "1" "abc" ⟨2023, 1, 1⟩ (by decide) (by decide) (by decide)
    (by decide) (by decide) (by decide)).2 ["2023-01-08,1,1,1,1,1"]
    ["2023-01-15,1,1,1,1,1"]

/-- C7: a line with the wrong field count, an unparseable date, or a
non-Sunday date contributes no key (the dict is returned unchanged) and
processing continues with the subsequent lines; every key of a returned
mapping is a Sunday; an empty file yields an empty mapping, not an error. -/
theorem process_csv_rejections :
    (∀ acc l, (splitCh ',' (pyRstrip l)).length ≠ 6 →
      processLine acc l = some acc) ∧
    (∀ acc l, (splitCh ',' (pyRstrip l)).length = 6 →
      parseDate ((splitCh ',' (pyRstrip l)).headD "") = none →
      processLine acc l = some acc) ∧
    (∀ acc l dt, parseDate ((splitCh ',' (pyRstrip l)).headD "") = some dt →
      pyWeekday dt ≠ 6 → processLine acc l = some acc) ∧
    (∀ acc l ls, processLine acc l = some acc →
      processAll acc (l :: ls) = processAll acc ls) ∧
    (∀ lines m, process_csv lines = some m →
      ∀ p ∈ m, pyWeekday (Prod.fst p) = 6) ∧
    process_csv [] = some [] := by
  refine ⟨fun acc l h => processLine_wrong_fields h acc,
    fun acc l h6 hd => processLine_bad_date h6 hd acc,
    fun acc l dt hd hs => processLine_not_sunday hd hs acc,
    fun acc l ls h => processAll_skip h ls,
    fun lines m h => processAll_sunday (fun p hp => absurd hp (by simp)) h,
    rfl⟩

theorem process_csv_rejections_witness :
    processLine [] "just some text" = some [] ∧
    processLine [] "9999-99-99,1,1,1,1,1" = some [] ∧
    processLine [] "2023-01-02,1,1,1,1,1" = some [] ∧
    process_csv [] = some [] :=
  ⟨process_csv_rejections.1 [] "just some text" (by decide),
    process_csv_rejections.2.1 [] "9999-99-99,1,1,1,1,1" (by decide)
      (by decide),
    process_csv_rejections.2.2.1 [] "2023-01-02,1,1,1,1,1" ⟨2023, 1, 2⟩
      (by decide) (by decide),
    process_csv_rejections.2.2.2.2.2⟩

/-- C10: the `expected 5 workdays` rejection branch is unreachable — for
any line that splits into exactly 6 fields, a successfully built hour list
from fields 2–6 has length exactly 5, and removing the length check from
`processLine` changes nothing on any input. -/
theorem hours_length_check_never_fires :
    (∀ parts : List String, parts.length = 6 →
      ∀ hs, buildHours ((parts.drop 1).take 5) = some hs → hs.length = 5) ∧
    (∀ acc l, processLine acc l = processLineNoCheck acc l) := by
  have hlen : ∀ parts : List String, parts.length = 6 →
      ∀ hs, buildHours ((parts.drop 1).take 5) = some hs → hs.length = 5 := by
    intro parts h6 hs hb
    rw [buildHours_length hb, List.length_take, List.length_drop, h6]
    decide
  refine ⟨hlen, ?_⟩
  intro acc l
  simp only [processLine, processLineNoCheck]
  split
  · rfl
  · rename_i h6
    split
    · rfl
    · rename_i d hd
      split
      · rfl
      · split
        · rfl
        · rename_i hs hb
          rw [if_neg (by
            have h5 := hlen _ (not_ne_iff.mp h6) hs hb
            omega)]

/-- C3: with an empty OverdueSet the run terminates immediately and
successfully: no data source is consulted (`process_csv` never runs, the
calendar collaborator is never queried) and nothing is submitted. -/
theorem run_no_overdue (args : Args) (ex : Date → List (Date × List Int)) :
    run args [] ex =
      some ⟨[], [], [], false, false, [], Terminal.noOverdue⟩ := rfl

/-- C4: the reconciliation loop visits overdue weeks in strictly ascending
date order, and when once-mode stops the run at week `w`, every overdue
week earlier than `w` that had a matching record has already been
submitted. -/
theorem run_ordering_invariant (args : Args) (ks : List Date)
    (ex : Date → List (Date × List Int)) (out : RunOutcome)
    (hnd : ks.Nodup) (hrun : run args ks ex = some out) :
    out.visited.Pairwise (fun a b => Date.lt a b = true) ∧
    ∀ w, out.terminal = Terminal.onceStop w →
      ∀ k ∈ ks, Date.lt k w = true →
        ∀ hs, List.lookup k out.data = some hs → (k, hs) ∈ out.submissions := by
  rcases run_cases hrun with rfl | rfl | ⟨data, c, e, rfl⟩
  · exact ⟨List.Pairwise.nil, by intro w hw; cases hw⟩
  · exact ⟨List.Pairwise.nil, by intro w hw; cases hw⟩
  · constructor
    · rw [loopOutcome_visited]
      exact List.Pairwise.sublist
        (reconcile_visited_sublist args data (sortDates ks))
        (sortDates_pairwise_lt hnd)
    · intro w hterm k hk hlt hs hlook
      rw [loopOutcome_data] at hlook
      rw [loopOutcome_onceStop_iff] at hterm
      cases ho : args.once with
      | false =>
        rw [reconcile_not_once_stop data ho] at hterm
        cases hterm
      | true =>
        have hnone := reconcile_stop_first ho (sortDates_pairwise_lt hnd)
          hterm k (mem_sortDates.mpr hk) hlt
        rw [hnone] at hlook
        cases hlook

/-- C5: with `dryRun` set, the submission collaborator is never called,
whatever the overdue weeks and the data mapping. -/
theorem run_dryrun_no_submission (args : Args) (ks : List Date)
    (ex : Date → List (Date × List Int)) (out : RunOutcome)
    (hdry : args.dryrun = true) (hrun : run args ks ex = some out) :
    out.submissions = [] := by
  rcases run_cases hrun with rfl | rfl | ⟨data, c, e, rfl⟩
  · rfl
  · rfl
  · rw [loopOutcome_submissions]
    exact reconcile_dryrun data hdry _

/-- C6: with once-mode set, the run stops at the first overdue week found
in the data mapping (regardless of dryRun): at most one matched week is
processed and at most one submission is made; if the loop ran to exhaustion
no overdue week matched at all. -/
theorem run_once_mode (args : Args) (ks : List Date)
    (ex : Date → List (Date × List Int)) (out : RunOutcome)
    (honce : args.once = true) (hrun : run args ks ex = some out) :
    out.submissions.length ≤ 1 ∧
    out.visited.countP (fun k => (List.lookup k out.data).isSome) ≤ 1 ∧
    (∀ w, out.terminal = Terminal.onceStop w →
      List.find? (fun k => (List.lookup k out.data).isSome) (sortDates ks) =
        some w) ∧
    (out.terminal = Terminal.exhausted → ∀ k ∈ ks,
      List.lookup k out.data = none) := by
  rcases run_cases hrun with rfl | rfl | ⟨data, c, e, rfl⟩
  · refine ⟨by simp, by simp, ?_, ?_⟩
    · intro w hw
      cases hw
    · intro hw
      cases hw
  · refine ⟨by simp, by simp, ?_, ?_⟩
    · intro w hw
      cases hw
    · intro hw
      cases hw
  · refine ⟨?_, ?_, ?_, ?_⟩
    · rw [loopOutcome_submissions]
      exact reconcile_once_subs data honce _
    · rw [loopOutcome_visited, loopOutcome_data]
      exact reconcile_once_matches data honce _
    · intro w hterm
      rw [loopOutcome_onceStop_iff] at hterm
      rw [loopOutcome_data, ← reconcile_once_stop data honce]
      exact hterm
    · intro hterm k hk
      rw [loopOutcome_exhausted_iff, reconcile_once_stop data honce] at hterm
      rw [loopOutcome_data]
      have hnotp := List.find?_eq_none.mp hterm k (mem_sortDates.mpr hk)
      cases hl : List.lookup k data with
      | none => rfl
      | some v => exact absurd (by rw [hl]; rfl) hnotp

/-- C8 (counterexample): in list mode the printed output is not exactly the
formatted overdue dates — a header line `Overdue Dates` precedes them. -/
theorem run_list_mode_counterexample :
    (run ⟨false, false, true, none, false⟩ [⟨2023, 1, 1⟩] (fun _ => [])).map
        RunOutcome.printed = some ["Overdue Dates", "2023-Jan-01"] ∧
    (run ⟨false, false, true, none, false⟩ [⟨2023, 1, 1⟩] (fun _ => [])).map
        RunOutcome.printed ≠ some [fmtDate ⟨2023, 1, 1⟩] :=
  ⟨by decide, by decide⟩

/-- C8 (amended): with `listOnly` set and a non-empty OverdueSet, the
output is the header line `Overdue Dates` followed by exactly the overdue
dates in ascending order formatted `YYYY-Mon-DD`, and the run terminates
without reading any data source and without submitting anything. -/
theorem run_list_mode_output (args : Args) (ks : List Date)
    (ex : Date → List (Date × List Int)) (hl : args.list_overdue = true)
    (hne : ks ≠ []) (hnd : ks.Nodup) :
    run args ks ex =
      some ⟨"Overdue Dates" :: (sortDates ks).map fmtDate, [], [], false,
        false, [], Terminal.listed⟩ ∧
    List.Perm (sortDates ks) ks ∧
    (sortDates ks).Pairwise (fun a b => Date.lt a b = true) := by
  refine ⟨?_, sortDates_perm ks, sortDates_pairwise_lt hnd⟩
  have hpos : ¬ (ks.length < 1) := by
    have := List.length_pos.mpr hne
    omega
  unfold run
  rw [if_neg hpos, if_pos hl]

/-- C9: with an empty OverdueSet and `listOnly` set, the run takes the
no-overdue terminal path (the emptiness check precedes the list-mode
branch) and never prints an empty list of dates. -/
theorem run_list_mode_empty_overdue (args : Args)
    (ex : Date → List (Date × List Int)) (hl : args.list_overdue = true) :
    (run args [] ex).map RunOutcome.terminal = some Terminal.noOverdue ∧
    (run args [] ex).map RunOutcome.printed = some [] := ⟨rfl, rfl⟩

/-! ### Witness inputs -/

/-- A calendar collaborator returning no worked hours. -/
def exEmpty : Date → List (Date × List Int) := fun _ => []

/-- A calendar collaborator with records for two Sundays. -/
def exData : Date → List (Date × List Int) :=
  fun _ => [(⟨2023, 1, 1⟩, [8, 8, 8, 8, 8]), (⟨2023, 1, 8⟩, [1, 2, 3, 4, 5])]

/-- Two overdue Sundays, unsorted. -/
def ksW : List Date := [⟨2023, 1, 8⟩, ⟨2023, 1, 1⟩]

/-- Flags: once-mode with the Exchange data source. -/
def argsOnceExch : Args := ⟨false, true, false, none, true⟩

/-- Flags: dry-run with the Exchange data source. -/
def argsDryExch : Args := ⟨true, false, false, none, true⟩

/-- Flags: list mode. -/
def argsListW : Args := ⟨false, false, true, none, false⟩

/-- Outcome of `run argsOnceExch ksW exData`. -/
def outOnceExch : RunOutcome :=
  ⟨[], [(⟨2023, 1, 1⟩, [8, 8, 8, 8, 8])], [⟨2023, 1, 1⟩], false, true,
    [(⟨2023, 1, 1⟩, [8, 8, 8, 8, 8]), (⟨2023, 1, 8⟩, [1, 2, 3, 4, 5])],
    Terminal.onceStop ⟨2023, 1, 1⟩⟩

/-- Outcome of `run argsDryExch ksW exData`. -/
def outDryExch : RunOutcome :=
  ⟨[], [], [⟨2023, 1, 1⟩, ⟨2023, 1, 8⟩], false, true,
    [(⟨2023, 1, 1⟩, [8, 8, 8, 8, 8]), (⟨2023, 1, 8⟩, [1, 2, 3, 4, 5])],
    Terminal.exhausted⟩

theorem run_ordering_invariant_witness :
    outOnceExch.visited.Pairwise (fun a b => Date.lt a b = true) ∧
    ∀ w, outOnceExch.terminal = Terminal.onceStop w →
      ∀ k ∈ ksW, Date.lt k w = true →
        ∀ hs, List.lookup k outOnceExch.data = some hs →
          (k, hs) ∈ outOnceExch.submissions :=
  run_ordering_invariant argsOnceExch ksW exData outOnceExch (by decide)
    (by decide)

theorem run_dryrun_no_submission_witness : outDryExch.submissions = [] :=
  run_dryrun_no_submission argsDryExch ksW exData outDryExch rfl (by decide)

theorem run_once_mode_witness :
    outOnceExch.submissions.length ≤ 1 ∧
    outOnceExch.visited.countP
      (fun k => (List.lookup k outOnceExch.data).isSome) ≤ 1 ∧
    (∀ w, outOnceExch.terminal = Terminal.onceStop w →
      List.find? (fun k => (List.lookup k outOnceExch.data).isSome)
        (sortDates ksW) = some w) ∧
    (outOnceExch.terminal = Terminal.exhausted → ∀ k ∈ ksW,
      List.lookup k outOnceExch.data = none) :=
  run_once_mode argsOnceExch ksW exData outOnceExch rfl (by decide)

theorem run_list_mode_output_witness :
    run argsListW ksW exEmpty =
      some ⟨"Overdue Dates" :: (sortDates ksW).map fmtDate, [], [], false,
        false, [], Terminal.listed⟩ ∧
    List.Perm (sortDates ksW) ksW ∧
    (sortDates ksW).Pairwise (fun a b => Date.lt a b = true) :=
  run_list_mode_output argsListW ksW exEmpty rfl (by decide) (by decide)

theorem run_list_mode_empty_overdue_witness :
    (run argsListW [] exEmpty).map RunOutcome.terminal =
      some Terminal.noOverdue ∧
    (run argsListW [] exEmpty).map RunOutcome.printed = some [] :=
  run_list_mode_empty_overdue argsListW exEmpty rfl

theorem hours_length_check_never_fires_witness :
    ([1, 2, 3, 4, 5] : List Int).length = 5 ∧
    processLine [] "2023-01-01,1,2,3,4,5" =
      processLineNoCheck [] "2023-01-01,1,2,3,4,5" :=
  ⟨hours_length_check_never_fires.1
      ["2023-01-01", "1", "2", "3", "4", "5"] (by decide) [1, 2, 3, 4, 5]
      (by decide),
    hours_length_check_never_fires.2 [] "2023-01-01,1,2,3,4,5"⟩

end Ptr
